import Mathlib

/-!
Shallow embedding of the timeline/command engine of the AI-Video-Editor
rust_core crate (src/rust_core/src/lib.rs), together with theorems about
its command processing and playback-resolution behaviour.

Machine integers (`u64`) are embedded as `Nat` with explicit wrapping
(mod `2 ^ 64`) at every operation where the Rust code can overflow or
underflow, matching release-profile (wrapping) semantics.  The two
implicit clocks of the Rust code (the millisecond epoch timestamp used
by `CutClip` and the RFC-3339 string used by `update_modified_time`)
are made explicit as extra parameters `nowMs` and `nowStr` of `handle`.
-/

/-- The modulus of `u64` arithmetic. -/
def U64 : Nat := 2 ^ 64

/-- Wrapping `u64` addition. -/
def wadd (a b : Nat) : Nat := (a + b) % U64

/-- Wrapping `u64` subtraction (two's-complement style, as in a Rust
release build). -/
def wsub (a b : Nat) : Nat := (a % U64 + (U64 - b % U64)) % U64

/-- One trimmed reference to a media source (`struct Clip`). -/
structure Clip where
  id : String
  url : String
  in_point : Nat
  out_point : Nat
deriving DecidableEq, Repr

/-- Ordered, magnetic sequence of clips (`struct Timeline`). -/
structure Timeline where
  clips : List Clip
deriving DecidableEq, Repr

/-- One named editing session (`struct Project`). -/
structure Project where
  name : String
  timeline : Timeline
  created_at : String
  modified_at : String
deriving DecidableEq, Repr

/-- `Project::new`: empty timeline, both timestamps stamped with `now`. -/
def Project.new (name : String) (now : String) : Project :=
  { name := name
    timeline := { clips := [] }
    created_at := now
    modified_at := now }

/-- `Project::update_modified_time`, with the fresh clock value passed
explicitly. -/
def Project.update_modified_time (p : Project) (now : String) : Project :=
  { p with modified_at := now }

/-- The closed set of engine commands (`enum Command`). -/
inductive Command where
  | AddClip : Clip → Nat → Command
  | RemoveClip : Nat → Command
  | CutClip : Nat → Nat → Command
  | UpdateClipRange : Nat → Nat → Nat → Command
  | Play : Command
  | Pause : Command
  | Seek : Nat → Command
  | Tick : Nat → Command
deriving DecidableEq, Repr

/-- `matches!(cmd, Command::Tick(_))`. -/
def Command.isTick : Command → Bool
  | Command.Tick _ => true
  | _ => false

/-- The four timeline-editing commands (used to state frame conditions). -/
def Command.isEdit : Command → Bool
  | Command.AddClip _ _ => true
  | Command.RemoveClip _ => true
  | Command.CutClip _ _ => true
  | Command.UpdateClipRange _ _ _ => true
  | _ => false

/-- `struct PlaybackState`. -/
structure PlaybackState where
  is_playing : Bool
  time_ms : Nat
deriving DecidableEq, Repr

/-- `PlaybackState::default()`. -/
def PlaybackState.default : PlaybackState :=
  { is_playing := false, time_ms := 0 }

/-- `struct Engine`. -/
structure Engine where
  project : Option Project
  current_file_path : Option String
  is_dirty : Bool
  playback_state : PlaybackState
deriving DecidableEq, Repr

/-- `enum EngineEvent`. -/
inductive EngineEvent where
  | TimelineChanged : Timeline → EngineEvent
deriving DecidableEq, Repr

/-- `Engine::new`, with the construction clock passed explicitly. -/
def Engine.new (now : String) : Engine :=
  { project := some (Project.new "Untitled Project" now)
    current_file_path := none
    is_dirty := true
    playback_state := PlaybackState.default }

/-- `Engine::get_timeline`. -/
def Engine.get_timeline (e : Engine) : Timeline :=
  match e.project with
  | some p => p.timeline
  | none => { clips := [] }

/-- The clip list reachable from the engine (empty when no project is
loaded). -/
def engineClips (e : Engine) : List Clip :=
  (Engine.get_timeline e).clips

/-- The total duration as the Rust code computes it:
`clips.iter().map(|c| c.out_point - c.in_point).sum()` with wrapping
`u64` subtraction and addition. -/
def totalDuration (clips : List Clip) : Nat :=
  clips.foldl (fun acc c => wadd acc (wsub c.out_point c.in_point)) 0

/-- `Engine::handle`.  `nowMs` is the `SystemTime` epoch-millisecond
timestamp drawn inside the `CutClip` arm; `nowStr` is the RFC-3339
string drawn by `update_modified_time`. -/
def Engine.handle (e : Engine) (cmd : Command) (nowMs : Nat) (nowStr : String) :
    Engine × EngineEvent :=
  match e.project with
  | some project =>
    let step : Project × PlaybackState :=
      match cmd with
      | Command.AddClip clip idx =>
        let clips := project.timeline.clips
        let clips2 :=
          if idx ≤ clips.length then clips.insertIdx idx clip
          else clips ++ [clip]
        ({ project with timeline := { clips := clips2 } }, e.playback_state)
      | Command.RemoveClip idx =>
        let clips := project.timeline.clips
        let clips2 := if idx < clips.length then clips.eraseIdx idx else clips
        ({ project with timeline := { clips := clips2 } }, e.playback_state)
      | Command.CutClip idx position =>
        let clips := project.timeline.clips
        let clips2 :=
          match clips[idx]? with
          | some clip =>
            if clip.in_point < position ∧ position < clip.out_point then
              let first_clip : Clip :=
                { id := clip.id ++ "-" ++ toString nowMs ++ "-A"
                  url := clip.url
                  in_point := clip.in_point
                  out_point := position }
              let second_clip : Clip :=
                { id := clip.id ++ "-" ++ toString nowMs ++ "-B"
                  url := clip.url
                  in_point := position
                  out_point := clip.out_point }
              ((clips.eraseIdx idx).insertIdx idx second_clip).insertIdx idx first_clip
            else clips
          | none => clips
        ({ project with timeline := { clips := clips2 } }, e.playback_state)
      | Command.UpdateClipRange idx new_in new_out =>
        let clips := project.timeline.clips
        let clips2 :=
          match clips[idx]? with
          | some clip =>
            if new_in < new_out then
              clips.set idx { clip with in_point := new_in, out_point := new_out }
            else clips
          | none => clips
        ({ project with timeline := { clips := clips2 } }, e.playback_state)
      | Command.Play => (project, { e.playback_state with is_playing := true })
      | Command.Pause => (project, { e.playback_state with is_playing := false })
      | Command.Seek time =>
        let total_duration := totalDuration project.timeline.clips
        (project, { e.playback_state with time_ms := min time total_duration })
      | Command.Tick delta_ms =>
        if e.playback_state.is_playing then
          let total_duration := totalDuration project.timeline.clips
          let new_time := wadd e.playback_state.time_ms delta_ms
          if total_duration ≤ new_time then
            (project, { is_playing := false, time_ms := total_duration })
          else
            (project, { e.playback_state with time_ms := new_time })
        else (project, e.playback_state)
    let project2 :=
      if cmd.isTick then step.1 else Project.update_modified_time step.1 nowStr
    let dirty := if cmd.isTick then e.is_dirty else true
    ({ e with
        project := some project2
        is_dirty := dirty
        playback_state := step.2 },
     EngineEvent.TimelineChanged project2.timeline)
  | none => (e, EngineEvent.TimelineChanged { clips := [] })

/-- `Engine::get_clip_for_time`, inner loop over the clip list, carrying
the accumulated `current_time`. -/
def getClipForTimeAux (time_ms : Nat) : Nat → List Clip → Option (Clip × Nat)
  | _, [] => none
  | current_time, clip :: rest =>
    let clip_duration := wsub clip.out_point clip.in_point
    if current_time ≤ time_ms ∧ time_ms < wadd current_time clip_duration then
      some (clip, wadd clip.in_point (wsub time_ms current_time))
    else
      getClipForTimeAux time_ms (wadd current_time clip_duration) rest

/-- `Engine::get_clip_for_time`. -/
def Engine.get_clip_for_time (e : Engine) : Option (Clip × Nat) :=
  match e.project with
  | some project => getClipForTimeAux e.playback_state.time_ms 0 project.timeline.clips
  | none => none

/-!
Panic-instrumented variant: each `Vec` operation the Rust code performs
that can panic (`insert` with index > len, `remove` and `Index` with
index ≥ len) is made fallible, so that totality of `handle` over its
whole input domain is a theorem rather than a modelling artifact.
Arithmetic wraps, as in a release build.
-/

/-- `Vec::insert`: `none` models the panic when `idx > len`. -/
def checkedInsert {α : Type} (l : List α) (idx : Nat) (a : α) : Option (List α) :=
  if idx ≤ l.length then some (l.insertIdx idx a) else none

/-- `Vec::remove`: `none` models the panic when `idx ≥ len`. -/
def checkedRemove {α : Type} (l : List α) (idx : Nat) : Option (List α) :=
  if idx < l.length then some (l.eraseIdx idx) else none

/-- `Index for Vec`: `none` models the panic when `idx ≥ len`. -/
def checkedIndex {α : Type} (l : List α) (idx : Nat) : Option α := l[idx]?

/-- `Engine::handle` with every potentially panicking operation made
fallible; mirrors the source arm by arm. -/
def Engine.handleChecked (e : Engine) (cmd : Command) (nowMs : Nat) (nowStr : String) :
    Option (Engine × EngineEvent) :=
  match e.project with
  | some project =>
    let stepOpt : Option (Project × PlaybackState) :=
      match cmd with
      | Command.AddClip clip idx =>
        let clips := project.timeline.clips
        (if idx ≤ clips.length then checkedInsert clips idx clip
         else some (clips ++ [clip])).map
          (fun clips2 => ({ project with timeline := { clips := clips2 } }, e.playback_state))
      | Command.RemoveClip idx =>
        let clips := project.timeline.clips
        (if idx < clips.length then checkedRemove clips idx else some clips).map
          (fun clips2 => ({ project with timeline := { clips := clips2 } }, e.playback_state))
      | Command.CutClip idx position =>
        let clips := project.timeline.clips
        (if idx < clips.length then
          (checkedIndex clips idx).bind (fun clip =>
            if clip.in_point < position ∧ position < clip.out_point then
              let first_clip : Clip :=
                { id := clip.id ++ "-" ++ toString nowMs ++ "-A"
                  url := clip.url
                  in_point := clip.in_point
                  out_point := position }
              let second_clip : Clip :=
                { id := clip.id ++ "-" ++ toString nowMs ++ "-B"
                  url := clip.url
                  in_point := position
                  out_point := clip.out_point }
              (checkedRemove clips idx).bind (fun l1 =>
                (checkedInsert l1 idx second_clip).bind (fun l2 =>
                  checkedInsert l2 idx first_clip))
            else some clips)
         else some clips).map
          (fun clips2 => ({ project with timeline := { clips := clips2 } }, e.playback_state))
      | Command.UpdateClipRange idx new_in new_out =>
        let clips := project.timeline.clips
        (if idx < clips.length then
          (checkedIndex clips idx).map (fun clip =>
            if new_in < new_out then
              clips.set idx { clip with in_point := new_in, out_point := new_out }
            else clips)
         else some clips).map
          (fun clips2 => ({ project with timeline := { clips := clips2 } }, e.playback_state))
      | Command.Play => some (project, { e.playback_state with is_playing := true })
      | Command.Pause => some (project, { e.playback_state with is_playing := false })
      | Command.Seek time =>
        let total_duration := totalDuration project.timeline.clips
        some (project, { e.playback_state with time_ms := min time total_duration })
      | Command.Tick delta_ms =>
        if e.playback_state.is_playing then
          let total_duration := totalDuration project.timeline.clips
          let new_time := wadd e.playback_state.time_ms delta_ms
          if total_duration ≤ new_time then
            some (project, { is_playing := false, time_ms := total_duration })
          else
            some (project, { e.playback_state with time_ms := new_time })
        else some (project, e.playback_state)
    stepOpt.map
      (fun step =>
        let project2 :=
          if cmd.isTick then step.1 else Project.update_modified_time step.1 nowStr
        let dirty := if cmd.isTick then e.is_dirty else true
        ({ e with
            project := some project2
            is_dirty := dirty
            playback_state := step.2 },
         EngineEvent.TimelineChanged project2.timeline))
  | none => some (e, EngineEvent.TimelineChanged { clips := [] })

/-!
Spec-side readings, used to compare the code against the specification
text where the two could differ.  They follow the specification's words
and use exact (non-wrapping) arithmetic, since the specification states
its arithmetic mathematically.
-/

/-- Spec reading of the total duration: "total_duration = sum of all
clip durations", the mathematically exact sum of `out_point - in_point`
over all clips. -/
def specTotalDuration (clips : List Clip) : Nat :=
  (clips.map (fun c => c.out_point - c.in_point)).sum

/-- Spec reading of playhead resolution (walk the clips in order,
accumulating `current_time` from 0; return the first clip whose window
`[current_time, current_time + clip_duration)` contains `time_ms`,
with in-clip offset `in_point + (time_ms - current_time)`). -/
def specResolveAux (time_ms : Nat) : Nat → List Clip → Option (Clip × Nat)
  | _, [] => none
  | current_time, clip :: rest =>
    let clip_duration := clip.out_point - clip.in_point
    if current_time ≤ time_ms ∧ time_ms < current_time + clip_duration then
      some (clip, clip.in_point + (time_ms - current_time))
    else specResolveAux time_ms (current_time + clip_duration) rest

/-!
Invariant machinery for the reachable-state claims.
-/

/-- The clip trim invariant `in_point < out_point`. -/
def clipOk (c : Clip) : Prop := c.in_point < c.out_point

instance (c : Clip) : Decidable (clipOk c) :=
  inferInstanceAs (Decidable (c.in_point < c.out_point))

/-- A command whose payload respects the clip invariant: `AddClip` must
carry a clip with `in_point < out_point`; every other command is
unconstrained. -/
def cmdOk : Command → Prop
  | Command.AddClip clip _ => clipOk clip
  | _ => True

instance : (cmd : Command) → Decidable (cmdOk cmd)
  | Command.AddClip c _ => inferInstanceAs (Decidable (clipOk c))
  | Command.RemoveClip _ => inferInstanceAs (Decidable True)
  | Command.CutClip _ _ => inferInstanceAs (Decidable True)
  | Command.UpdateClipRange _ _ _ => inferInstanceAs (Decidable True)
  | Command.Play => inferInstanceAs (Decidable True)
  | Command.Pause => inferInstanceAs (Decidable True)
  | Command.Seek _ => inferInstanceAs (Decidable True)
  | Command.Tick _ => inferInstanceAs (Decidable True)

/-- Every clip reachable from the engine's timeline satisfies the trim
invariant. -/
def timelineOk (e : Engine) : Prop := ∀ c ∈ engineClips e, clipOk c

instance (e : Engine) : Decidable (timelineOk e) :=
  inferInstanceAs (Decidable (∀ c ∈ engineClips e, clipOk c))

/-- Run a sequence of commands, each paired with its two clock values. -/
def runCmds : Engine → List (Command × Nat × String) → Engine
  | e, [] => e
  | e, (c, ms, s) :: rest => runCmds (Engine.handle e c ms s).1 rest

/-!
Concrete fixtures for witnesses and counterexamples.
-/

/-- Build a project around a clip list, with fixed name and timestamps. -/
def mkProject (clips : List Clip) : Project :=
  { name := "p"
    timeline := { clips := clips }
    created_at := "t0"
    modified_at := "t0" }

/-- Build a loaded, clean engine around a clip list and playback state. -/
def mkEngine (clips : List Clip) (pb : PlaybackState) : Engine :=
  { project := some (mkProject clips)
    current_file_path := none
    is_dirty := false
    playback_state := pb }

/-- A clip trimmed to source range `[100, 500)`. -/
def clipA : Clip := { id := "a", url := "u", in_point := 100, out_point := 500 }

/-- A clip trimmed to source range `[0, 100)`. -/
def clipB : Clip := { id := "b", url := "v", in_point := 0, out_point := 100 }

/-- A clip whose duration is the largest `u64` value. -/
def clipHuge : Clip := { id := "h", url := "u", in_point := 0, out_point := 2 ^ 64 - 1 }

/-- A clip whose duration is `2 ^ 63`. -/
def clipHalf1 : Clip := { id := "h1", url := "u", in_point := 0, out_point := 2 ^ 63 }

/-- A second clip whose duration is `2 ^ 63`. -/
def clipHalf2 : Clip := { id := "h2", url := "u", in_point := 0, out_point := 2 ^ 63 }

/-- A clip with an inverted range (`in_point > out_point`). -/
def clipBad : Clip := { id := "x", url := "u", in_point := 5, out_point := 3 }

/-- A valid clip of duration `2 ^ 63`, first of the wrap-edge playhead
timeline. -/
def clipQ1 : Clip := { id := "q1", url := "u", in_point := 0, out_point := 2 ^ 63 }

/-- A valid clip of duration `2 ^ 63`, second of the wrap-edge playhead
timeline. -/
def clipQ2 : Clip := { id := "q2", url := "u", in_point := 0, out_point := 2 ^ 63 }

/-- A valid clip of duration 10, third of the wrap-edge playhead
timeline. -/
def clipQ3 : Clip := { id := "q3", url := "u", in_point := 0, out_point := 10 }

/-- First clip of the spec §8 playhead example, range `[0, 200)`. -/
def clipP1 : Clip := { id := "p1", url := "u", in_point := 0, out_point := 200 }

/-- Second clip of the spec §8 playhead example, range `[200, 500)`. -/
def clipP2 : Clip := { id := "p2", url := "u", in_point := 200, out_point := 500 }

/-!
Helper lemmas.
-/

theorem U64_pos : 0 < U64 := by
  unfold U64
  positivity

theorem wadd_eq_add {a b : Nat} (h : a + b < U64) : wadd a b = a + b :=
  Nat.mod_eq_of_lt h

theorem wsub_eq_sub {a b : Nat} (hba : b ≤ a) (ha : a < U64) : wsub a b = a - b := by
  have hb : b < U64 := lt_of_le_of_lt hba ha
  unfold wsub
  rw [Nat.mod_eq_of_lt ha, Nat.mod_eq_of_lt hb]
  have h1 : a + (U64 - b) = (a - b) + U64 := by omega
  rw [h1, Nat.add_mod_right, Nat.mod_eq_of_lt (by omega)]

theorem insertIdx_eq_take_cons_drop :
    ∀ (n : Nat) (l : List Clip) (a : Clip), n ≤ l.length →
      l.insertIdx n a = l.take n ++ a :: l.drop n
  | 0, _, _, _ => rfl
  | n + 1, [], _, h => absurd h (by simp)
  | n + 1, x :: xs, a, h => by
    rw [List.insertIdx_succ_cons, List.take_succ_cons, List.drop_succ_cons,
      insertIdx_eq_take_cons_drop n xs a (by simpa using h)]
    rfl

theorem splice_eq_take_cons_cons_drop :
    ∀ (idx : Nat) (l : List Clip) (a b : Clip), idx < l.length →
      ((l.eraseIdx idx).insertIdx idx b).insertIdx idx a =
        l.take idx ++ a :: b :: l.drop (idx + 1)
  | 0, _ :: _, _, _, _ => rfl
  | idx + 1, x :: xs, a, b, h => by
    rw [List.eraseIdx_cons_succ, List.insertIdx_succ_cons, List.insertIdx_succ_cons,
      List.take_succ_cons, List.drop_succ_cons,
      splice_eq_take_cons_cons_drop idx xs a b (by simpa using h)]
    rfl

theorem specTotalDuration_cons (c : Clip) (rest : List Clip) :
    specTotalDuration (c :: rest) =
      (c.out_point - c.in_point) + specTotalDuration rest := by
  simp [specTotalDuration]

theorem foldl_wadd_eq_spec (clips : List Clip) :
    ∀ acc : Nat, acc < U64 →
      (∀ c ∈ clips, c.in_point ≤ c.out_point ∧ c.out_point < U64) →
      acc + specTotalDuration clips < U64 →
      clips.foldl (fun acc c => wadd acc (wsub c.out_point c.in_point)) acc =
        acc + specTotalDuration clips := by
  induction clips with
  | nil => intro acc _ _ _; simp [specTotalDuration]
  | cons c rest ih =>
    intro acc hacc hwf hsum
    have hc := hwf c (by simp)
    rw [specTotalDuration_cons] at hsum ⊢
    rw [List.foldl_cons, wsub_eq_sub hc.1 hc.2, wadd_eq_add (by omega),
      ih (acc + (c.out_point - c.in_point)) (by omega)
        (fun x hx => hwf x (by simp [hx])) (by omega)]
    omega

theorem totalDuration_eq_spec {clips : List Clip}
    (hwf : ∀ c ∈ clips, c.in_point ≤ c.out_point ∧ c.out_point < U64)
    (hsum : specTotalDuration clips < U64) :
    totalDuration clips = specTotalDuration clips := by
  have h := foldl_wadd_eq_spec clips 0 U64_pos hwf (by simpa using hsum)
  simpa [totalDuration] using h

theorem getClipForTimeAux_eq_spec :
    ∀ (clips : List Clip) (t ct : Nat),
      (∀ c ∈ clips, c.in_point ≤ c.out_point ∧ c.out_point < U64) →
      ct + specTotalDuration clips < U64 →
      getClipForTimeAux t ct clips = specResolveAux t ct clips := by
  intro clips
  induction clips with
  | nil => intro t ct _ _; rfl
  | cons c rest ih =>
    intro t ct hwf hsum
    have hc := hwf c (by simp)
    rw [specTotalDuration_cons] at hsum
    have hdur : wsub c.out_point c.in_point = c.out_point - c.in_point :=
      wsub_eq_sub hc.1 hc.2
    have hctd : wadd ct (c.out_point - c.in_point) = ct + (c.out_point - c.in_point) :=
      wadd_eq_add (by omega)
    unfold getClipForTimeAux specResolveAux
    simp only [hdur, hctd]
    by_cases hin : ct ≤ t ∧ t < ct + (c.out_point - c.in_point)
    · have ht : t < U64 := by omega
      rw [if_pos hin, if_pos hin, wsub_eq_sub hin.1 ht, wadd_eq_add (by omega)]
    · rw [if_neg hin, if_neg hin]
      exact ih t (ct + (c.out_point - c.in_point))
        (fun x hx => hwf x (by simp [hx])) (by omega)

theorem append_A_ne_append_B (s : String) : s ++ "-A" ≠ s ++ "-B" := by
  intro h
  have h2 : (s ++ "-A").data = (s ++ "-B").data := congrArg String.data h
  rw [String.data_append, String.data_append] at h2
  have h3 := List.append_cancel_left h2
  exact absurd h3 (by decide)

theorem handle_preserves_timelineOk (e : Engine) (cmd : Command) (ms : Nat) (s : String)
    (he : timelineOk e) (hc : cmdOk cmd) :
    timelineOk (Engine.handle e cmd ms s).1 := by
  cases hp : e.project with
  | none =>
    intro c hcm
    apply he
    simpa [Engine.handle, hp] using hcm
  | some p =>
    have hall : ∀ c ∈ p.timeline.clips, clipOk c := fun c hcm =>
      he c (by simp [engineClips, Engine.get_timeline, hp, hcm])
    cases cmd with
    | AddClip clip idx =>
      intro c hcm
      simp only [engineClips, Engine.get_timeline, Engine.handle, hp, Command.isTick,
        Project.update_modified_time, Bool.false_eq_true, if_false] at hcm
      split at hcm
      · rcases (List.mem_insertIdx (by assumption)).mp hcm with h | h
        · subst h; exact hc
        · exact hall c h
      · rcases List.mem_append.mp hcm with h | h
        · exact hall c h
        · simp at h; subst h; exact hc
    | RemoveClip idx =>
      intro c hcm
      simp only [engineClips, Engine.get_timeline, Engine.handle, hp, Command.isTick,
        Project.update_modified_time, Bool.false_eq_true, if_false] at hcm
      split at hcm
      · exact hall c (List.mem_of_mem_eraseIdx hcm)
      · exact hall c hcm
    | CutClip idx pos =>
      intro c hcm
      rcases hidx : p.timeline.clips[idx]? with _ | clip
      · simp only [engineClips, Engine.get_timeline, Engine.handle, hp, hidx, Command.isTick,
          Project.update_modified_time, Bool.false_eq_true, if_false] at hcm
        exact hall c hcm
      · have hlt : idx < p.timeline.clips.length := (List.getElem?_eq_some.mp hidx).1
        simp only [engineClips, Engine.get_timeline, Engine.handle, hp, hidx, Command.isTick,
          Project.update_modified_time, Bool.false_eq_true, if_false] at hcm
        split at hcm
        · rw [splice_eq_take_cons_cons_drop idx p.timeline.clips _ _ hlt] at hcm
          rcases List.mem_append.mp hcm with h | h
          · exact hall c (List.take_subset _ _ h)
          · rcases List.mem_cons.mp h with h1 | h1
            · subst h1
              have : clip.in_point < pos := by omega
              exact this
            · rcases List.mem_cons.mp h1 with h2 | h2
              · subst h2
                have : pos < clip.out_point := by omega
                exact this
              · exact hall c (List.drop_subset _ _ h2)
        · exact hall c hcm
    | UpdateClipRange idx a b =>
      intro c hcm
      rcases hidx : p.timeline.clips[idx]? with _ | clip
      · simp only [engineClips, Engine.get_timeline, Engine.handle, hp, hidx, Command.isTick,
          Project.update_modified_time, Bool.false_eq_true, if_false] at hcm
        exact hall c hcm
      · simp only [engineClips, Engine.get_timeline, Engine.handle, hp, hidx, Command.isTick,
          Project.update_modified_time, Bool.false_eq_true, if_false] at hcm
        split at hcm
        · rcases List.mem_or_eq_of_mem_set hcm with h | h
          · exact hall c h
          · subst h
            simpa [clipOk] using (by assumption : a < b)
        · exact hall c hcm
    | Play =>
      intro c hcm
      refine hall c ?_
      simpa [engineClips, Engine.get_timeline, Engine.handle, hp, Command.isTick,
        Project.update_modified_time] using hcm
    | Pause =>
      intro c hcm
      refine hall c ?_
      simpa [engineClips, Engine.get_timeline, Engine.handle, hp, Command.isTick,
        Project.update_modified_time] using hcm
    | Seek t =>
      intro c hcm
      refine hall c ?_
      simpa [engineClips, Engine.get_timeline, Engine.handle, hp, Command.isTick,
        Project.update_modified_time] using hcm
    | Tick d =>
      intro c hcm
      refine hall c ?_
      cases hb : e.playback_state.is_playing <;>
        simp only [engineClips, Engine.get_timeline, Engine.handle, hp, hb, Command.isTick,
          Project.update_modified_time, if_true, if_false] at hcm
      · exact hcm
      · split at hcm <;> exact hcm

theorem runCmds_preserves_timelineOk :
    ∀ (cmds : List (Command × Nat × String)) (e : Engine),
      timelineOk e → (∀ x ∈ cmds, cmdOk x.1) → timelineOk (runCmds e cmds)
  | [], _, he, _ => he
  | (c, ms, s) :: rest, e, he, h =>
    runCmds_preserves_timelineOk rest (Engine.handle e c ms s).1
      (handle_preserves_timelineOk e c ms s he (h (c, ms, s) (by simp)))
      (fun x hx => h x (by simp [hx]))

/-!
Claim theorems.
-/

/-- C1 (counterexample): the claim as stated is false.  From a fresh
engine, a single `AddClip` whose clip has `in_point = 5 > out_point = 3`
places that invalid clip in the timeline: the `AddClip` arm inserts its
clip without any range validation, so `in_point < out_point` does not
hold for every reachable clip. -/
theorem C1_counterexample :
    engineClips (runCmds (Engine.new "t0") [(Command.AddClip clipBad 0, 0, "t1")]) =
      [clipBad] ∧
    ¬ clipOk clipBad := by
  constructor
  · rfl
  · decide

/-- C1 (amended): after any command sequence from a fresh engine, every
reachable clip satisfies `in_point < out_point`, provided every
`AddClip` command's payload satisfies it; `CutClip` and
`UpdateClipRange` preserve or establish the invariant at their mutation
sites, but `AddClip` inserts its clip unvalidated. -/
theorem C1_invariant_amended (s0 : String) (cmds : List (Command × Nat × String))
    (h : ∀ x ∈ cmds, cmdOk x.1) :
    timelineOk (runCmds (Engine.new s0) cmds) := by
  apply runCmds_preserves_timelineOk cmds (Engine.new s0) _ h
  intro c hc
  simp [engineClips, Engine.get_timeline, Engine.new, Project.new] at hc

/-- C1 witness: a concrete sequence (a valid `AddClip`, then a valid
`CutClip`) satisfies the amended invariant. -/
theorem C1_invariant_amended_witness :
    (∀ x ∈ ([(Command.AddClip clipB 0, 0, "t1"), (Command.CutClip 0 50, 7, "t2")] :
        List (Command × Nat × String)), cmdOk x.1) ∧
    timelineOk (runCmds (Engine.new "t0")
      [(Command.AddClip clipB 0, 0, "t1"), (Command.CutClip 0 50, 7, "t2")]) :=
  ⟨by decide, C1_invariant_amended "t0" _ (by decide)⟩

/-- C2: `Engine::handle` is total over its whole input domain — the
panic-instrumented embedding (in which every `Vec` indexing, insertion
and removal can fail, and `u64` arithmetic wraps as in a release build)
always returns `some`, and agrees with the plain embedding, for every
engine state and every command. -/
theorem C2_handle_total (e : Engine) (cmd : Command) (ms : Nat) (s : String) :
    Engine.handleChecked e cmd ms s = some (Engine.handle e cmd ms s) := by
  cases hp : e.project with
  | none => simp [Engine.handleChecked, Engine.handle, hp]
  | some p =>
    cases cmd with
    | AddClip clip idx =>
      by_cases h : idx ≤ p.timeline.clips.length <;>
        simp [Engine.handleChecked, Engine.handle, checkedInsert, hp, h]
    | RemoveClip idx =>
      by_cases h : idx < p.timeline.clips.length <;>
        simp [Engine.handleChecked, Engine.handle, checkedRemove, hp, h]
    | CutClip idx pos =>
      by_cases h : idx < p.timeline.clips.length
      · have hidx : p.timeline.clips[idx]? = some p.timeline.clips[idx] :=
          List.getElem?_eq_getElem h
        have hlen1 : (p.timeline.clips.eraseIdx idx).length = p.timeline.clips.length - 1 := by
          rw [List.length_eraseIdx, if_pos h]
        have h1 : idx ≤ (p.timeline.clips.eraseIdx idx).length := by omega
        have e1 : checkedRemove p.timeline.clips idx = some (p.timeline.clips.eraseIdx idx) := by
          unfold checkedRemove
          rw [if_pos h]
        have e2 : ∀ b : Clip, checkedInsert (p.timeline.clips.eraseIdx idx) idx b =
            some ((p.timeline.clips.eraseIdx idx).insertIdx idx b) := by
          intro b
          unfold checkedInsert
          rw [if_pos h1]
        have h2 : ∀ b : Clip, idx ≤ ((p.timeline.clips.eraseIdx idx).insertIdx idx b).length := by
          intro b
          rw [List.length_insertIdx idx _ h1]
          omega
        have e3 : ∀ a b : Clip,
            checkedInsert ((p.timeline.clips.eraseIdx idx).insertIdx idx b) idx a =
              some (((p.timeline.clips.eraseIdx idx).insertIdx idx b).insertIdx idx a) := by
          intro a b
          unfold checkedInsert
          rw [if_pos (h2 b)]
        by_cases hg : (p.timeline.clips[idx]).in_point < pos ∧ pos < (p.timeline.clips[idx]).out_point <;>
          simp [Engine.handleChecked, Engine.handle, hp, hidx, h, checkedIndex, e1, e2, e3, hg]
      · have hidx : p.timeline.clips[idx]? = none := List.getElem?_eq_none (by omega)
        simp [Engine.handleChecked, Engine.handle, hp, hidx, h, checkedIndex]
    | UpdateClipRange idx a b =>
      by_cases h : idx < p.timeline.clips.length
      · have hidx : p.timeline.clips[idx]? = some p.timeline.clips[idx] :=
          List.getElem?_eq_getElem h
        by_cases hr : a < b <;>
          simp [Engine.handleChecked, Engine.handle, hp, hidx, h, checkedIndex, hr]
      · have hidx : p.timeline.clips[idx]? = none := List.getElem?_eq_none (by omega)
        simp [Engine.handleChecked, Engine.handle, hp, hidx, h, checkedIndex]
    | Play => simp [Engine.handleChecked, Engine.handle, hp]
    | Pause => simp [Engine.handleChecked, Engine.handle, hp]
    | Seek t => simp [Engine.handleChecked, Engine.handle, hp]
    | Tick d =>
      cases hb : e.playback_state.is_playing with
      | false => simp [Engine.handleChecked, Engine.handle, hp, hb]
      | true =>
        by_cases ht : totalDuration p.timeline.clips ≤ wadd e.playback_state.time_ms d <;>
          simp [Engine.handleChecked, Engine.handle, hp, hb, ht]

/-- C3: for a valid index, `CutClip` with `in_point < position <
out_point` replaces the addressed clip in place by exactly the two
half-clips (ranges `(in_point, position)` and `(position, out_point)`,
same `url`, distinct ids derived from the original id plus the shared
split timestamp and suffixes `-A`/`-B`), preserving order, combined
duration and all other clips; with `position ≤ in_point` or `position ≥
out_point` the clip list is unchanged. -/
theorem C3_cutClip_correct (e : Engine) (p : Project) (clip : Clip)
    (idx pos ms : Nat) (s : String)
    (hp : e.project = some p) (hidx : p.timeline.clips[idx]? = some clip) :
    (clip.in_point < pos → pos < clip.out_point →
      engineClips (Engine.handle e (Command.CutClip idx pos) ms s).1 =
        p.timeline.clips.take idx ++
          { id := clip.id ++ "-" ++ toString ms ++ "-A", url := clip.url,
            in_point := clip.in_point, out_point := pos } ::
          { id := clip.id ++ "-" ++ toString ms ++ "-B", url := clip.url,
            in_point := pos, out_point := clip.out_point } ::
          p.timeline.clips.drop (idx + 1) ∧
      (clip.id ++ "-" ++ toString ms ++ "-A") ≠ (clip.id ++ "-" ++ toString ms ++ "-B") ∧
      (pos - clip.in_point) + (clip.out_point - pos) = clip.out_point - clip.in_point) ∧
    (pos ≤ clip.in_point ∨ clip.out_point ≤ pos →
      engineClips (Engine.handle e (Command.CutClip idx pos) ms s).1 =
        p.timeline.clips) := by
  have hlt : idx < p.timeline.clips.length := (List.getElem?_eq_some.mp hidx).1
  constructor
  · intro h1 h2
    refine ⟨?_, append_A_ne_append_B _, by omega⟩
    simp only [engineClips, Engine.get_timeline, Engine.handle, hp, hidx, Command.isTick,
      Project.update_modified_time, Bool.false_eq_true, if_false, if_pos (And.intro h1 h2)]
    exact splice_eq_take_cons_cons_drop idx p.timeline.clips _ _ hlt
  · intro h
    have hg : ¬ (clip.in_point < pos ∧ pos < clip.out_point) := by omega
    simp only [engineClips, Engine.get_timeline, Engine.handle, hp, hidx, Command.isTick,
      Project.update_modified_time, Bool.false_eq_true, if_false, if_neg hg]

/-- C3 witness: cutting the clip `(in=100, out=500)` at position 300
with split timestamp 7 yields exactly the clips `a-7-A : (100,300)` and
`a-7-B : (300,500)`. -/
theorem C3_cutClip_correct_witness :
    engineClips (Engine.handle (mkEngine [clipA] PlaybackState.default)
        (Command.CutClip 0 300) 7 "t1").1 =
      [{ id := "a-7-A", url := "u", in_point := 100, out_point := 300 },
       { id := "a-7-B", url := "u", in_point := 300, out_point := 500 }] := by
  have h := (C3_cutClip_correct (mkEngine [clipA] PlaybackState.default)
    (mkProject [clipA]) clipA 0 300 7 "t1" rfl rfl).1 (by decide) (by decide)
  rw [h.1]
  rfl

/-- C8: `AddClip` with `index ≤ length` inserts the clip at exactly
that index (shifting subsequent clips right); with `index > length` it
appends instead of failing; in both cases the clip count grows by one
and the pre-existing clips keep their order. -/
theorem C8_addClip_insertion (e : Engine) (p : Project) (clip : Clip)
    (idx ms : Nat) (s : String) (hp : e.project = some p) :
    (idx ≤ p.timeline.clips.length →
      engineClips (Engine.handle e (Command.AddClip clip idx) ms s).1 =
        p.timeline.clips.take idx ++ clip :: p.timeline.clips.drop idx) ∧
    (p.timeline.clips.length < idx →
      engineClips (Engine.handle e (Command.AddClip clip idx) ms s).1 =
        p.timeline.clips ++ [clip]) ∧
    (engineClips (Engine.handle e (Command.AddClip clip idx) ms s).1).length =
      p.timeline.clips.length + 1 := by
  refine ⟨?_, ?_, ?_⟩
  · intro h
    simp only [engineClips, Engine.get_timeline, Engine.handle, hp, Command.isTick,
      Project.update_modified_time, Bool.false_eq_true, if_false, if_pos h]
    exact insertIdx_eq_take_cons_drop idx p.timeline.clips clip h
  · intro h
    simp only [engineClips, Engine.get_timeline, Engine.handle, hp, Command.isTick,
      Project.update_modified_time, Bool.false_eq_true, if_false,
      if_neg (by omega : ¬ idx ≤ p.timeline.clips.length)]
  · by_cases h : idx ≤ p.timeline.clips.length
    · simp only [engineClips, Engine.get_timeline, Engine.handle, hp, Command.isTick,
        Project.update_modified_time, Bool.false_eq_true, if_false, if_pos h]
      exact List.length_insertIdx idx p.timeline.clips h
    · simp only [engineClips, Engine.get_timeline, Engine.handle, hp, Command.isTick,
        Project.update_modified_time, Bool.false_eq_true, if_false, if_neg h]
      simp

/-- C8 witness: inserting `clipB` at index 0 of `[clipA]` shifts
`clipA` right; inserting at the out-of-range index 5 appends. -/
theorem C8_addClip_insertion_witness :
    engineClips (Engine.handle (mkEngine [clipA] PlaybackState.default)
        (Command.AddClip clipB 0) 0 "t1").1 = [clipB, clipA] ∧
    engineClips (Engine.handle (mkEngine [clipA] PlaybackState.default)
        (Command.AddClip clipB 5) 0 "t1").1 = [clipA, clipB] := by
  constructor
  · have h := (C8_addClip_insertion (mkEngine [clipA] PlaybackState.default)
      (mkProject [clipA]) clipB 0 0 "t1" rfl).1 (by decide)
    rw [h]
    rfl
  · have h := (C8_addClip_insertion (mkEngine [clipA] PlaybackState.default)
      (mkProject [clipA]) clipB 5 0 "t1" rfl).2.1 (by decide)
    rw [h]
    rfl

/-- C9: with an out-of-range index, `RemoveClip`, `CutClip` and
`UpdateClipRange` leave the clip list entirely unchanged, and
`UpdateClipRange` with `new_in ≥ new_out` leaves it unchanged at any
index; no error is signalled (the commands still return normally). -/
theorem C9_out_of_range_noop (e : Engine) (p : Project)
    (idx pos new_in new_out ms : Nat) (s : String) (hp : e.project = some p) :
    (p.timeline.clips.length ≤ idx →
      engineClips (Engine.handle e (Command.RemoveClip idx) ms s).1 = p.timeline.clips ∧
      engineClips (Engine.handle e (Command.CutClip idx pos) ms s).1 = p.timeline.clips ∧
      engineClips (Engine.handle e (Command.UpdateClipRange idx new_in new_out) ms s).1 =
        p.timeline.clips) ∧
    (new_out ≤ new_in →
      engineClips (Engine.handle e (Command.UpdateClipRange idx new_in new_out) ms s).1 =
        p.timeline.clips) := by
  constructor
  · intro h
    have hidx : p.timeline.clips[idx]? = none := List.getElem?_eq_none h
    refine ⟨?_, ?_, ?_⟩
    · simp only [engineClips, Engine.get_timeline, Engine.handle, hp, Command.isTick,
        Project.update_modified_time, Bool.false_eq_true, if_false,
        if_neg (by omega : ¬ idx < p.timeline.clips.length)]
    · simp only [engineClips, Engine.get_timeline, Engine.handle, hp, hidx, Command.isTick,
        Project.update_modified_time, Bool.false_eq_true, if_false]
    · simp only [engineClips, Engine.get_timeline, Engine.handle, hp, hidx, Command.isTick,
        Project.update_modified_time, Bool.false_eq_true, if_false]
  · intro h
    rcases hidx : p.timeline.clips[idx]? with _ | clip
    · simp only [engineClips, Engine.get_timeline, Engine.handle, hp, hidx, Command.isTick,
        Project.update_modified_time, Bool.false_eq_true, if_false]
    · simp only [engineClips, Engine.get_timeline, Engine.handle, hp, hidx, Command.isTick,
        Project.update_modified_time, Bool.false_eq_true, if_false,
        if_neg (by omega : ¬ new_in < new_out)]

/-- C9 witness: on a one-clip timeline, removing, cutting or retrimming
index 3, and an inverted retrim of index 0, all leave the timeline as
`[clipA]`. -/
theorem C9_out_of_range_noop_witness :
    engineClips (Engine.handle (mkEngine [clipA] PlaybackState.default)
        (Command.RemoveClip 3) 0 "t1").1 = [clipA] ∧
    engineClips (Engine.handle (mkEngine [clipA] PlaybackState.default)
        (Command.UpdateClipRange 0 400 200) 0 "t1").1 = [clipA] := by
  constructor
  · exact ((C9_out_of_range_noop (mkEngine [clipA] PlaybackState.default)
      (mkProject [clipA]) 3 0 0 0 0 "t1" rfl).1 (by decide)).1
  · exact (C9_out_of_range_noop (mkEngine [clipA] PlaybackState.default)
      (mkProject [clipA]) 0 0 400 200 0 "t1" rfl).2 (by decide)

/-- C7: with a project loaded, every command except `Tick` sets
`is_dirty = true` and replaces `modified_at` with the fresh timestamp,
even when it changed no timeline data; `Tick` leaves both `is_dirty`
and `modified_at` untouched; `created_at` and `name` are never
changed. -/
theorem C7_dirty_policy (e : Engine) (p : Project) (cmd : Command)
    (ms : Nat) (s : String) (hp : e.project = some p) :
    (cmd.isTick = false →
      (Engine.handle e cmd ms s).1.is_dirty = true ∧
      (Engine.handle e cmd ms s).1.project.map Project.modified_at = some s) ∧
    (cmd.isTick = true →
      (Engine.handle e cmd ms s).1.is_dirty = e.is_dirty ∧
      (Engine.handle e cmd ms s).1.project.map Project.modified_at = some p.modified_at) ∧
    (Engine.handle e cmd ms s).1.project.map Project.created_at = some p.created_at ∧
    (Engine.handle e cmd ms s).1.project.map Project.name = some p.name := by
  cases cmd with
  | AddClip clip idx =>
    refine ⟨fun _ => ?_, fun h => by simp [Command.isTick] at h, ?_, ?_⟩ <;>
      simp [Engine.handle, hp, Command.isTick, Project.update_modified_time]
  | RemoveClip idx =>
    refine ⟨fun _ => ?_, fun h => by simp [Command.isTick] at h, ?_, ?_⟩ <;>
      simp [Engine.handle, hp, Command.isTick, Project.update_modified_time]
  | CutClip idx pos =>
    refine ⟨fun _ => ?_, fun h => by simp [Command.isTick] at h, ?_, ?_⟩ <;>
      simp [Engine.handle, hp, Command.isTick, Project.update_modified_time]
  | UpdateClipRange idx a b =>
    refine ⟨fun _ => ?_, fun h => by simp [Command.isTick] at h, ?_, ?_⟩ <;>
      simp [Engine.handle, hp, Command.isTick, Project.update_modified_time]
  | Play =>
    refine ⟨fun _ => ?_, fun h => by simp [Command.isTick] at h, ?_, ?_⟩ <;>
      simp [Engine.handle, hp, Command.isTick, Project.update_modified_time]
  | Pause =>
    refine ⟨fun _ => ?_, fun h => by simp [Command.isTick] at h, ?_, ?_⟩ <;>
      simp [Engine.handle, hp, Command.isTick, Project.update_modified_time]
  | Seek t =>
    refine ⟨fun _ => ?_, fun h => by simp [Command.isTick] at h, ?_, ?_⟩ <;>
      simp [Engine.handle, hp, Command.isTick, Project.update_modified_time]
  | Tick d =>
    refine ⟨fun h => by simp [Command.isTick] at h, fun _ => ?_, ?_, ?_⟩ <;>
      cases hb : e.playback_state.is_playing <;>
        simp [Engine.handle, hp, hb, Command.isTick] <;>
          split <;> simp

/-- C7 witness: an out-of-range `RemoveClip` still marks the project
dirty and stamps the new `modified_at`, while `Tick` changes
neither. -/
theorem C7_dirty_policy_witness :
    ((Engine.handle (mkEngine [clipA] PlaybackState.default) (Command.RemoveClip 9) 0 "T1").1.is_dirty = true ∧
     (Engine.handle (mkEngine [clipA] PlaybackState.default) (Command.RemoveClip 9) 0 "T1").1.project.map
       Project.modified_at = some "T1") ∧
    ((Engine.handle (mkEngine [clipA] PlaybackState.default) (Command.Tick 5) 0 "T1").1.is_dirty =
       (mkEngine [clipA] PlaybackState.default).is_dirty ∧
     (Engine.handle (mkEngine [clipA] PlaybackState.default) (Command.Tick 5) 0 "T1").1.project.map
       Project.modified_at = some (mkProject [clipA]).modified_at) :=
  ⟨(C7_dirty_policy (mkEngine [clipA] PlaybackState.default) (mkProject [clipA])
      (Command.RemoveClip 9) 0 "T1" rfl).1 rfl,
   ((C7_dirty_policy (mkEngine [clipA] PlaybackState.default) (mkProject [clipA])
      (Command.Tick 5) 0 "T1" rfl).2.1 rfl)⟩

/-- C10: the four editing commands (`AddClip`, `RemoveClip`, `CutClip`,
`UpdateClipRange`) leave the playback state (both `is_playing` and
`time_ms`) completely unchanged, for every engine state. -/
theorem C10_edit_preserves_playback (e : Engine) (cmd : Command)
    (ms : Nat) (s : String) (h : cmd.isEdit = true) :
    (Engine.handle e cmd ms s).1.playback_state = e.playback_state := by
  cases hp : e.project with
  | none => simp [Engine.handle, hp]
  | some p =>
    cases cmd with
    | AddClip clip idx => simp [Engine.handle, hp]
    | RemoveClip idx => simp [Engine.handle, hp]
    | CutClip idx pos => simp [Engine.handle, hp]
    | UpdateClipRange idx a b => simp [Engine.handle, hp]
    | Play => simp [Command.isEdit] at h
    | Pause => simp [Command.isEdit] at h
    | Seek t => simp [Command.isEdit] at h
    | Tick d => simp [Command.isEdit] at h

/-- C10 witness: removing the second of two clips leaves the playback
time at 150 even though the remaining total duration is only 100 — no
editing command re-clamps the playback time. -/
theorem C10_edit_preserves_playback_witness :
    (Engine.handle (mkEngine [clipB, clipB] { is_playing := false, time_ms := 150 })
        (Command.RemoveClip 1) 0 "t1").1.playback_state =
      (mkEngine [clipB, clipB] { is_playing := false, time_ms := 150 }).playback_state ∧
    totalDuration (engineClips (Engine.handle
        (mkEngine [clipB, clipB] { is_playing := false, time_ms := 150 })
        (Command.RemoveClip 1) 0 "t1").1) <
      (Engine.handle (mkEngine [clipB, clipB] { is_playing := false, time_ms := 150 })
        (Command.RemoveClip 1) 0 "t1").1.playback_state.time_ms :=
  ⟨C10_edit_preserves_playback (mkEngine [clipB, clipB] { is_playing := false, time_ms := 150 })
      (Command.RemoveClip 1) 0 "t1" rfl,
   by decide⟩

/-- C4 (counterexample): the claim as stated is false at the `u64`
overflow edge.  With one clip of duration `2 ^ 64 - 1`, `is_playing =
true` and `time_ms = 2 ^ 64 - 1` (a state reachable via `AddClip`,
`Play`, `Seek`), `Tick(1)` has `time_ms + delta ≥ D` yet the code wraps
`time_ms + delta` to `0`, sets `time_ms = 0 ≠ D` and leaves
`is_playing = true`. -/
theorem C4_counterexample :
    (mkEngine [clipHuge] { is_playing := true, time_ms := 2 ^ 64 - 1 }).playback_state.is_playing
      = true ∧
    specTotalDuration (engineClips
        (mkEngine [clipHuge] { is_playing := true, time_ms := 2 ^ 64 - 1 })) ≤
      (mkEngine [clipHuge] { is_playing := true, time_ms := 2 ^ 64 - 1 }).playback_state.time_ms
        + 1 ∧
    (Engine.handle (mkEngine [clipHuge] { is_playing := true, time_ms := 2 ^ 64 - 1 })
        (Command.Tick 1) 0 "t1").1.playback_state.is_playing = true ∧
    (Engine.handle (mkEngine [clipHuge] { is_playing := true, time_ms := 2 ^ 64 - 1 })
        (Command.Tick 1) 0 "t1").1.playback_state.time_ms = 0 ∧
    specTotalDuration (engineClips
        (mkEngine [clipHuge] { is_playing := true, time_ms := 2 ^ 64 - 1 })) ≠ 0 := by
  refine ⟨rfl, ?_, ?_, ?_, ?_⟩ <;> decide

/-- C4 (amended): provided no `u64` overflow occurs (well-formed clips,
exact total duration `D < 2 ^ 64`, and `time_ms + delta < 2 ^ 64`),
`Tick(delta)` while playing sets `time_ms = D` and `is_playing = false`
when `time_ms + delta ≥ D`, and otherwise adds `delta` to `time_ms` and
keeps playing; while paused it leaves the playback state unchanged. -/
theorem C4_tick_amended (e : Engine) (p : Project) (delta ms : Nat) (s : String)
    (hp : e.project = some p)
    (hwf : ∀ c ∈ p.timeline.clips, c.in_point ≤ c.out_point ∧ c.out_point < U64)
    (hsum : specTotalDuration p.timeline.clips < U64)
    (hov : e.playback_state.time_ms + delta < U64) :
    (e.playback_state.is_playing = true →
      (specTotalDuration p.timeline.clips ≤ e.playback_state.time_ms + delta →
        (Engine.handle e (Command.Tick delta) ms s).1.playback_state =
          { is_playing := false, time_ms := specTotalDuration p.timeline.clips }) ∧
      (e.playback_state.time_ms + delta < specTotalDuration p.timeline.clips →
        (Engine.handle e (Command.Tick delta) ms s).1.playback_state =
          { is_playing := true, time_ms := e.playback_state.time_ms + delta })) ∧
    (e.playback_state.is_playing = false →
      (Engine.handle e (Command.Tick delta) ms s).1.playback_state =
        e.playback_state) := by
  have htot : totalDuration p.timeline.clips = specTotalDuration p.timeline.clips :=
    totalDuration_eq_spec hwf hsum
  have hw : wadd e.playback_state.time_ms delta = e.playback_state.time_ms + delta :=
    wadd_eq_add hov
  constructor
  · intro hb
    constructor
    · intro hge
      simp only [Engine.handle, hp, hb, Command.isTick, if_true, htot, hw, if_pos hge]
    · intro hlt
      simp only [Engine.handle, hp, hb, Command.isTick, if_true, htot, hw,
        if_neg (by omega : ¬ specTotalDuration p.timeline.clips ≤
          e.playback_state.time_ms + delta)]
  · intro hb
    simp only [Engine.handle, hp, hb, Command.isTick, Bool.false_eq_true, if_false]

/-- C4 witness: with one clip of duration 100, playing at `time_ms =
60`, `Tick(50)` clamps to 100 and stops, while `Tick(30)` advances to
90 and keeps playing. -/
theorem C4_tick_amended_witness :
    (Engine.handle (mkEngine [clipB] { is_playing := true, time_ms := 60 })
        (Command.Tick 50) 0 "t1").1.playback_state =
      { is_playing := false,
        time_ms := specTotalDuration
          (mkProject [clipB]).timeline.clips } ∧
    (Engine.handle (mkEngine [clipB] { is_playing := true, time_ms := 60 })
        (Command.Tick 30) 0 "t1").1.playback_state =
      { is_playing := true, time_ms := 60 + 30 } :=
  ⟨((C4_tick_amended (mkEngine [clipB] { is_playing := true, time_ms := 60 })
      (mkProject [clipB]) 50 0 "t1" rfl (by decide) (by decide) (by decide)).1 rfl).1
      (by decide),
   ((C4_tick_amended (mkEngine [clipB] { is_playing := true, time_ms := 60 })
      (mkProject [clipB]) 30 0 "t1" rfl (by decide) (by decide) (by decide)).1 rfl).2
      (by decide)⟩

/-- C5 (counterexample): the claim as stated is false at the `u64`
overflow edge.  With two clips of duration `2 ^ 63` each, the exact sum
of durations is `2 ^ 64`, but the code's wrapping sum is `0`, so
`Seek(5)` sets `time_ms = 0`, not `min 5 (total duration) = 5`. -/
theorem C5_counterexample :
    (Engine.handle (mkEngine [clipHalf1, clipHalf2] PlaybackState.default)
        (Command.Seek 5) 0 "t1").1.playback_state.time_ms = 0 ∧
    min 5 (specTotalDuration (engineClips
        (mkEngine [clipHalf1, clipHalf2] PlaybackState.default))) = 5 ∧
    (Engine.handle (mkEngine [clipHalf1, clipHalf2] PlaybackState.default)
        (Command.Seek 5) 0 "t1").1.playback_state.time_ms ≠
      min 5 (specTotalDuration (engineClips
        (mkEngine [clipHalf1, clipHalf2] PlaybackState.default))) := by
  refine ⟨?_, ?_, ?_⟩ <;> decide

/-- C5 (amended): provided no `u64` overflow occurs (well-formed clips
and exact total duration `< 2 ^ 64`), `Seek(t)` sets `time_ms` to
`min t total_duration`, where `total_duration` is the sum of
`out_point - in_point` over all clips; seeking past the end clamps to
the end exactly and never errors. -/
theorem C5_seek_amended (e : Engine) (p : Project) (t ms : Nat) (s : String)
    (hp : e.project = some p)
    (hwf : ∀ c ∈ p.timeline.clips, c.in_point ≤ c.out_point ∧ c.out_point < U64)
    (hsum : specTotalDuration p.timeline.clips < U64) :
    (Engine.handle e (Command.Seek t) ms s).1.playback_state.time_ms =
      min t (specTotalDuration p.timeline.clips) := by
  have htot : totalDuration p.timeline.clips = specTotalDuration p.timeline.clips :=
    totalDuration_eq_spec hwf hsum
  simp only [Engine.handle, hp, Command.isTick, htot]

/-- C5 witness: seeking to 1000 on a timeline of total duration 400
clamps `time_ms` to exactly 400. -/
theorem C5_seek_amended_witness :
    (Engine.handle (mkEngine [clipA] PlaybackState.default) (Command.Seek 1000) 0 "t1").1.playback_state.time_ms =
      min 1000 (specTotalDuration (mkProject [clipA]).timeline.clips) ∧
    min 1000 (specTotalDuration (mkProject [clipA]).timeline.clips) = 400 :=
  ⟨C5_seek_amended (mkEngine [clipA] PlaybackState.default) (mkProject [clipA])
      1000 0 "t1" rfl (by decide) (by decide),
   by decide⟩

/-- C6 (counterexample): the claim as stated is false at the `u64`
overflow edge.  On the all-valid timeline `[(0, 2^63), (0, 2^63),
(0, 10)]` at `time_ms = 2^63`, the code's wrapped window test for the
second clip compares against `wadd (2^63) (2^63) = 0` and fails, so
`get_clip_for_time` returns `none`, while the claimed walk places
`time_ms` in the second clip's window `[2^63, 2^64)` and returns it at
source offset `0 + (2^63 - 2^63) = 0`. -/
theorem C6_counterexample :
    Engine.get_clip_for_time
        (mkEngine [clipQ1, clipQ2, clipQ3] { is_playing := false, time_ms := 2 ^ 63 }) =
      none ∧
    specResolveAux (2 ^ 63) 0 (mkProject [clipQ1, clipQ2, clipQ3]).timeline.clips =
      some (clipQ2, 0) ∧
    (∀ c ∈ (mkProject [clipQ1, clipQ2, clipQ3]).timeline.clips, clipOk c) := by
  refine ⟨?_, ?_, ?_⟩ <;> decide

/-- C6 (amended): with a loaded project and no `u64` overflow in the
cumulative durations (every clip has `in_point ≤ out_point < 2^64` and
the exact total duration is `< 2^64`), `get_clip_for_time` computes
exactly the spec's walk: it returns the first clip whose window
`[current_time, current_time + clip_duration)` contains `time_ms`,
paired with source offset `in_point + (time_ms - current_time)`, and
`none` when no clip matches; with no project loaded it returns
`none`. -/
theorem C6_playhead_amended (e : Engine) :
    (∀ p, e.project = some p →
      (∀ c ∈ p.timeline.clips, c.in_point ≤ c.out_point ∧ c.out_point < U64) →
      specTotalDuration p.timeline.clips < U64 →
      Engine.get_clip_for_time e =
        specResolveAux e.playback_state.time_ms 0 p.timeline.clips) ∧
    (e.project = none → Engine.get_clip_for_time e = none) := by
  constructor
  · intro p hp hwf hsum
    simp only [Engine.get_clip_for_time, hp]
    exact getClipForTimeAux_eq_spec p.timeline.clips e.playback_state.time_ms 0 hwf
      (by simpa using hsum)
  · intro hp
    simp [Engine.get_clip_for_time, hp]

/-- C6 witness: on the spec §8 example timeline `[(0,200), (200,500)]`
at global time 250, the code and the spec walk agree, and both resolve
to the second clip at source offset `200 + (250 - 200) = 250`. -/
theorem C6_playhead_amended_witness :
    Engine.get_clip_for_time (mkEngine [clipP1, clipP2] { is_playing := true, time_ms := 250 }) =
      specResolveAux 250 0 (mkProject [clipP1, clipP2]).timeline.clips ∧
    specResolveAux 250 0 (mkProject [clipP1, clipP2]).timeline.clips = some (clipP2, 250) :=
  ⟨(C6_playhead_amended (mkEngine [clipP1, clipP2] { is_playing := true, time_ms := 250 })).1
      (mkProject [clipP1, clipP2]) rfl (by decide) (by decide),
   by decide⟩
